import Mathlib

/-!
Shallow embedding of the diff-attribution core of the devrpg repository
(`GitLab.diffFile` and `GitLab.fetchFileContent` in `gitlab.js`).

The remote service, the wall clock, the base64 decoder (`atob`) and the
diff library (`jsdiff.structuredPatch`) are collaborators: they are
modelled as an explicit environment (`Env`) handed to the embedded
functions.  Promise resolution and rejection become the `Outcome` type;
a promise that never settles (a rejected query chained through `.then`
with no `.catch`, or a handler that throws) is `Outcome.pending`.
Every remote query the code issues is recorded in an event trace.
-/

namespace DevRPG

/-- Project reference.  The core reads only its identifier
(`commit.getProject().getID()`); the remaining fields of the `Project`
class play no role in `diffFile`/`fetchFileContent` and are omitted. -/
structure Project where
  id : String
deriving DecidableEq

/-- Commit reference: a revision identifier plus a project reference,
the two fields `gitlab.js` reads via `getID`/`getProject` and the two
fields it passes when constructing the parent `Commit`. -/
structure Commit where
  id : String
  project : Project
deriving DecidableEq

def Commit.getID (c : Commit) : String := c.id

def Commit.getProject (c : Commit) : Project := c.project

/-- Modelled from the spec: the `File` class is not part of the embedded
source, so its record follows §3 of the spec: a project reference, a path
string, an optional content payload (`none` is the explicit Absent
marker, the JS `false`), and an accumulated signed line-delta
(`additions`), initially zero. -/
structure File where
  name : String
  project : Project
  content : Option String := none
  additions : Int := 0
deriving DecidableEq

def File.getName (f : File) : String := f.name

def File.getContent (f : File) : Option String := f.content

def File.setContent (f : File) (c : String) : File := { f with content := some c }

def File.setAdditions (f : File) (n : Int) : File := { f with additions := n }

def File.addAdditions (f : File) (n : Int) : File := { f with additions := f.additions + n }

/-- Modelled from the spec: the line counter behind `File.getLines` is
not in the embedded source.  Count of lines of a text: empty text has
zero lines, otherwise the newline-separated segments, a trailing
newline (character 10) not opening a further line ("a\nb\n" has 2
lines, matching §8 of the spec). -/
def countLines (s : String) : Nat :=
  let cs := s.toList
  cs.count (Char.ofNat 10) + (if cs = [] ∨ cs.getLast? = some (Char.ofNat 10) then 0 else 1)

/-- Modelled from the spec: `File.getLines` is the total line count of
the file's content; the stored payload is the raw fetched payload, so
the decoder is applied first, and Absent content has zero lines. -/
def File.getLines (dec : String → String) (f : File) : Nat :=
  match f.content with
  | none => 0
  | some c => countLines (dec c)

/-- A diff hunk as consumed by the core: `jsdiff.structuredPatch` hunks
carry old-side and new-side line counts (`hunk.oldLines`,
`hunk.newLines`); the remaining hunk fields are never read. -/
structure Hunk where
  oldLines : Nat
  newLines : Nat
deriving DecidableEq

/-- Net line delta of a hunk sequence: the sum of
`newLines - oldLines` over the hunks. -/
def hunkDelta (hunks : List Hunk) : Int :=
  (hunks.map (fun h => (h.newLines : Int) - (h.oldLines : Int))).sum

/-- Date as observed through the JS `Date` API: the code reads only
`getMonth()` (the 0–11 month-of-year), which discards the year. -/
structure SimpleDate where
  year : Int
  month : Nat
deriving DecidableEq

def SimpleDate.getMonth (d : SimpleDate) : Nat := d.month

/-- Parsed commit metadata as read by `diffFile`: the parent revision
identifiers and the creation date. -/
structure CommitData where
  parent_ids : List String
  created_at : SimpleDate
deriving DecidableEq

/-- Result of the repository-files query as seen by
`fetchFileContent`'s promise handlers:
`ok response` is a resolution of `query` (with `none` a falsy parsed
body, in which case no content is attached);
`err message` is a rejection of `query` carrying the error body —
`some m` when `JSON.parse` of that body yields an object with message
`m`, `none` when the body is not valid JSON (so `JSON.parse` throws
inside the `.catch` handler). -/
inductive FilesResp where
  | ok (response : Option String)
  | err (message : Option String)
deriving DecidableEq

/-- Result of the commit-metadata query: `ok none` is a falsy parsed
body, `err body` a rejected query (which `diffFile` never catches). -/
inductive MetaResp where
  | ok (data : Option CommitData)
  | err (body : String)
deriving DecidableEq

/-- Settled state of one of the promises the core returns: resolution
with a `File`, rejection with a reason string, or never settling
(`pending`: an unhandled rejection inside the promise chain). -/
inductive Outcome where
  | resolved (file : File)
  | rejected (reason : String)
  | pending
deriving DecidableEq

/-- Remote queries issued while evaluating `diffFile`, in order:
the commit-metadata fetch, a repository-file content fetch at a given
ref, and the invocation of the diff library on the two texts. -/
inductive QueryEvent where
  | metaFetch (commitId : String)
  | contentFetch (ref : String) (path : String)
  | hunksComputed
deriving DecidableEq

/-- Environment of one `diffFile` evaluation: the `File`-class path
predicates (modelled from the spec, §4.2: ignore list and skill
classification), the wall-clock date at evaluation time, the responses
the remote service gives to the three possible queries, the base64
decoder and the diff library. -/
structure Env where
  isIgnored : String → Bool
  getSkill : String → Option String
  now : SimpleDate
  meta : MetaResp
  fetchNew : FilesResp
  fetchOld : FilesResp
  atob : String → String
  structuredPatch : String → String → List Hunk

/-- Embedding of `GitLab.fetchFileContent`: on a resolved query with a
truthy body the fetched payload is attached to the file, on a falsy
body the file is resolved unchanged; on a rejected query whose error
body parses as JSON the failure is logged and the file is resolved
unchanged; on a rejected query whose error body is not JSON the
`JSON.parse` call in the `.catch` handler throws and the promise never
settles.  The promise executor never calls `reject`. -/
def fetchFileContent (resp : FilesResp) (commit : Commit) (file : File) : Outcome :=
  match resp with
  | .ok none => .resolved file
  | .ok (some c) => .resolved (file.setContent c)
  | .err (some _m) => .resolved file
  | .err none => .pending

/-- The file carried by `fetchFileContent`'s resolution whenever the
response lets it settle. -/
def fetchApply (resp : FilesResp) (file : File) : File :=
  match resp with
  | .ok (some c) => file.setContent c
  | _ => file

/-- Embedding of `GitLab.diffFile`, returning the settled state of the
returned promise together with the trace of remote queries issued. -/
def diffFile (env : Env) (commit : Commit) (filename : String) (status : String) :
    Outcome × List QueryEvent :=
  let file : File := { name := filename, project := commit.getProject }
  if env.isIgnored file.getName || (env.getSkill file.getName).isNone then
    (.rejected (filename ++ " @ #" ++ commit.getID ++ ": ignored or unskilled file"), [])
  else
    match env.meta with
    | .err _ => (.pending, [.metaFetch commit.getID])
    | .ok none =>
        (.rejected (filename ++ " @ #" ++ commit.getID ++ ": error loading commit data"),
         [.metaFetch commit.getID])
    | .ok (some commitData) =>
        if commitData.parent_ids.length > 1 then
          (.rejected (filename ++ " @ #" ++ commit.getID ++ ": commit was a merge"),
           [.metaFetch commit.getID])
        else if env.now.getMonth ≠ commitData.created_at.getMonth then
          (.rejected (filename ++ " @ #" ++ commit.getID ++ ": commit was not made this month"),
           [.metaFetch commit.getID])
        else
          match fetchFileContent env.fetchNew commit file with
          | .resolved newFile =>
              if status = "addition" ∨ commitData.parent_ids.length = 0 then
                (.resolved (newFile.setAdditions (newFile.getLines env.atob : Int)),
                 [.metaFetch commit.getID, .contentFetch commit.getID filename])
              else
                let parentCommit : Commit :=
                  { id := commitData.parent_ids.headD "", project := commit.getProject }
                let parentFile : File := { name := filename, project := commit.getProject }
                match fetchFileContent env.fetchOld parentCommit parentFile with
                | .resolved oldFile =>
                    if status = "removal" ∨ newFile.getContent = none then
                      (.resolved (oldFile.setAdditions (-(oldFile.getLines env.atob : Int))),
                       [.metaFetch commit.getID, .contentFetch commit.getID filename,
                        .contentFetch parentCommit.getID filename])
                    else if oldFile.getContent = none then
                      (.resolved (newFile.setAdditions (newFile.getLines env.atob : Int)),
                       [.metaFetch commit.getID, .contentFetch commit.getID filename,
                        .contentFetch parentCommit.getID filename])
                    else
                      let hunks := env.structuredPatch
                        (env.atob ((oldFile.getContent).getD ""))
                        (env.atob ((newFile.getContent).getD ""))
                      (.resolved (hunks.foldl
                          (fun f h => f.addAdditions ((h.newLines : Int) - (h.oldLines : Int)))
                          newFile),
                       [.metaFetch commit.getID, .contentFetch commit.getID filename,
                        .contentFetch parentCommit.getID filename, .hunksComputed])
                | _ =>
                    (.pending,
                     [.metaFetch commit.getID, .contentFetch commit.getID filename,
                      .contentFetch parentCommit.getID filename])
          | _ =>
              (.pending, [.metaFetch commit.getID, .contentFetch commit.getID filename])

/-! Concrete sample values used to evaluate the embedded functions on
closed inputs. -/

def projW : Project := { id := "7" }

def commW : Commit := { id := "abc", project := projW }

def fileW : File := { name := "x.js", project := projW }

def cdW : CommitData := { parent_ids := ["par"], created_at := { year := 2025, month := 9 } }

/-- Baseline environment: a processable path, a single-parent commit
created in the evaluation month, both content fetches succeeding, the
identity decoder, and a diff library giving one hunk (2 old lines,
3 new lines) on unequal texts. -/
def envW : Env :=
  { isIgnored := fun _ => false
    getSkill := fun _ => some "javascript"
    now := { year := 2025, month := 9 }
    meta := .ok (some cdW)
    fetchNew := .ok (some "a\nb\nc\n")
    fetchOld := .ok (some "a\nb\n")
    atob := fun s => s
    structuredPatch := fun a b => if a = b then [] else [{ oldLines := 2, newLines := 3 }] }

def cdMerge : CommitData := { parent_ids := ["p1", "p2"], created_at := { year := 2025, month := 9 } }

def envMerge : Env := { envW with meta := .ok (some cdMerge) }

def envIgn : Env := { envW with isIgnored := fun _ => true }

def cdMonth : CommitData := { parent_ids := ["par"], created_at := { year := 2025, month := 8 } }

def envMonth : Env := { envW with meta := .ok (some cdMonth) }

def cdYear : CommitData := { parent_ids := ["par"], created_at := { year := 2024, month := 9 } }

def envYear : Env := { envW with meta := .ok (some cdYear) }

def envAbsNew : Env :=
  { envW with fetchNew := .err (some "404 File Not Found"), fetchOld := .ok (some "a\n") }

def envAbsOld : Env := { envW with fetchOld := .err (some "404 File Not Found") }

/-! Helper lemmas shared by the claim theorems. -/

/-- Whenever the files-query response is not an unparseable error,
`fetchFileContent` resolves, carrying `fetchApply` of the file. -/
theorem fetchFileContent_settles (resp : FilesResp) (cm : Commit) (f : File)
    (h : resp ≠ .err none) :
    fetchFileContent resp cm f = .resolved (fetchApply resp f) := by
  cases resp with
  | ok o => cases o <;> rfl
  | err m =>
    cases m with
    | none => exact absurd rfl h
    | some m => rfl

/-- Folding `addAdditions` of each hunk's net line change over a file
accumulates exactly `hunkDelta` onto the file's delta. -/
theorem foldl_addAdditions (hunks : List Hunk) (f : File) :
    hunks.foldl (fun g h => g.addAdditions ((h.newLines : Int) - (h.oldLines : Int))) f =
      { f with additions := f.additions + hunkDelta hunks } := by
  induction hunks generalizing f with
  | nil => simp [hunkDelta]
  | cons h t ih =>
    rw [List.foldl_cons, ih]
    simp [File.addAdditions, hunkDelta, add_assoc]

/-- C1: for a true modification — status `modification`, exactly one
parent, both the current and the parent content fetched non-Absent —
`diffFile` decodes both payloads, computes the hunk sequence between
the two texts, and resolves with the current file carrying a delta
equal to the sum over all hunks of `newLines - oldLines`; with zero
hunks that delta is exactly 0. -/
theorem diffFile_true_modification_delta (env : Env) (commit : Commit) (filename : String)
    (cd : CommitData) (pid cOld cNew : String)
    (hIgn : env.isIgnored filename = false)
    (hSk : (env.getSkill filename).isNone = false)
    (hMeta : env.meta = .ok (some cd))
    (hPar : cd.parent_ids = [pid])
    (hM : env.now.getMonth = cd.created_at.getMonth)
    (hNew : env.fetchNew = .ok (some cNew))
    (hOld : env.fetchOld = .ok (some cOld)) :
    diffFile env commit filename "modification" =
      (.resolved { name := filename, project := commit.project, content := some cNew,
                   additions := hunkDelta (env.structuredPatch (env.atob cOld) (env.atob cNew)) },
       [.metaFetch commit.id, .contentFetch commit.id filename, .contentFetch pid filename,
        .hunksComputed])
    ∧ (env.structuredPatch (env.atob cOld) (env.atob cNew) = [] →
        hunkDelta (env.structuredPatch (env.atob cOld) (env.atob cNew)) = 0) := by
  constructor
  · unfold diffFile
    simp [File.getName, Commit.getID, Commit.getProject, hIgn, hSk, hMeta, hPar, hM, hNew, hOld,
      fetchFileContent, File.setContent, File.getContent, foldl_addAdditions]
  · intro h
    rw [h]
    simp [hunkDelta]

/-- Witness for C1 in the baseline environment: scenario A of the spec,
old text 2 lines, new text 3 lines, delta +1. -/
theorem diffFile_true_modification_delta_witness :
    envW.isIgnored "x.js" = false
    ∧ (envW.getSkill "x.js").isNone = false
    ∧ envW.meta = .ok (some cdW)
    ∧ cdW.parent_ids = ["par"]
    ∧ envW.now.getMonth = cdW.created_at.getMonth
    ∧ envW.fetchNew = .ok (some "a\nb\nc\n")
    ∧ envW.fetchOld = .ok (some "a\nb\n")
    ∧ ((diffFile envW commW "x.js" "modification" =
        (.resolved { name := "x.js", project := commW.project, content := some "a\nb\nc\n",
                     additions := hunkDelta (envW.structuredPatch (envW.atob "a\nb\n") (envW.atob "a\nb\nc\n")) },
         [.metaFetch commW.id, .contentFetch commW.id "x.js", .contentFetch "par" "x.js",
          .hunksComputed]))
       ∧ (envW.structuredPatch (envW.atob "a\nb\n") (envW.atob "a\nb\nc\n") = [] →
           hunkDelta (envW.structuredPatch (envW.atob "a\nb\n") (envW.atob "a\nb\nc\n")) = 0)) :=
  ⟨rfl, rfl, rfl, rfl, rfl, rfl, rfl,
   diffFile_true_modification_delta envW commW "x.js" cdW "par" "a\nb\n" "a\nb\nc\n"
     rfl rfl rfl rfl rfl rfl rfl⟩

/-- C2: for an eligible commit, if status is `addition` or the commit
has zero parents (any status), `diffFile` resolves with the current
file carrying a delta equal to its total line count; the trace shows
no parent-revision fetch and no diff computation. -/
theorem diffFile_addition_or_initial (env : Env) (commit : Commit) (filename status : String)
    (cd : CommitData)
    (hIgn : env.isIgnored filename = false)
    (hSk : (env.getSkill filename).isNone = false)
    (hMeta : env.meta = .ok (some cd))
    (hLe : cd.parent_ids.length ≤ 1)
    (hM : env.now.getMonth = cd.created_at.getMonth)
    (hBr : status = "addition" ∨ cd.parent_ids = [])
    (hNewS : env.fetchNew ≠ .err none) :
    diffFile env commit filename status =
      (.resolved ((fetchApply env.fetchNew { name := filename, project := commit.project }).setAdditions
        ((fetchApply env.fetchNew { name := filename, project := commit.project }).getLines env.atob : Int)),
       [.metaFetch commit.id, .contentFetch commit.id filename]) := by
  have hnl : ¬ (1 < cd.parent_ids.length) := by omega
  have hset := fetchFileContent_settles env.fetchNew commit
      { name := filename, project := commit.project } hNewS
  unfold diffFile
  rcases hBr with hBr | hBr
  · subst hBr
    simp [File.getName, Commit.getID, Commit.getProject, hIgn, hSk, hMeta, hnl, hM, hset]
  · simp [File.getName, Commit.getID, Commit.getProject, hIgn, hSk, hMeta, hnl, hM, hset, hBr]

/-- Witness for C2: a status-`addition` call in the baseline
environment, current content of 3 lines, delta +3. -/
theorem diffFile_addition_or_initial_witness :
    envW.isIgnored "x.js" = false
    ∧ (envW.getSkill "x.js").isNone = false
    ∧ envW.meta = .ok (some cdW)
    ∧ cdW.parent_ids.length ≤ 1
    ∧ envW.now.getMonth = cdW.created_at.getMonth
    ∧ ("addition" = "addition" ∨ cdW.parent_ids = [])
    ∧ envW.fetchNew ≠ .err none
    ∧ diffFile envW commW "x.js" "addition" =
      (.resolved ((fetchApply envW.fetchNew { name := "x.js", project := commW.project }).setAdditions
        ((fetchApply envW.fetchNew { name := "x.js", project := commW.project }).getLines envW.atob : Int)),
       [.metaFetch commW.id, .contentFetch commW.id "x.js"]) :=
  ⟨rfl, rfl, rfl, by decide, rfl, Or.inl rfl, by decide,
   diffFile_addition_or_initial envW commW "x.js" "addition" cdW rfl rfl rfl (by decide) rfl
     (Or.inl rfl) (by decide)⟩

/-- Counterexample to C3 as stated: an eligible single-parent commit
whose current-revision content is Absent but whose status argument is
`addition` resolves through the addition branch — with the current
file (content Absent, delta 0), no parent fetch issued — not with the
parent file carrying minus its line count (the parent here has 1
line, so the claim demands delta −1 and resolution with `oldFile`). -/
theorem diffFile_absent_current_with_addition_status_cex :
    cdW.parent_ids = ["par"]
    ∧ envAbsNew.now.getMonth = cdW.created_at.getMonth
    ∧ (fetchApply envAbsNew.fetchNew { name := "x.js", project := projW }).getContent = none
    ∧ (fetchApply envAbsNew.fetchOld { name := "x.js", project := projW }).getLines envAbsNew.atob = 1
    ∧ diffFile envAbsNew commW "x.js" "addition" =
        (.resolved { name := "x.js", project := projW, content := none, additions := 0 },
         [.metaFetch "abc", .contentFetch "abc" "x.js"]) := by decide

/-- C3 (amended): for an eligible single-parent commit, if status is
`removal`, or status is not `addition` and the fetched current content
is Absent, `diffFile` resolves with the parent-revision file carrying
a delta equal to minus the parent file's total line count, and that
delta is ≤ 0. -/
theorem diffFile_removal_or_absent_current (env : Env) (commit : Commit) (filename status : String)
    (cd : CommitData) (pid : String)
    (hIgn : env.isIgnored filename = false)
    (hSk : (env.getSkill filename).isNone = false)
    (hMeta : env.meta = .ok (some cd))
    (hPar : cd.parent_ids = [pid])
    (hM : env.now.getMonth = cd.created_at.getMonth)
    (hNewS : env.fetchNew ≠ .err none)
    (hOldS : env.fetchOld ≠ .err none)
    (hBr : status = "removal" ∨ (status ≠ "addition" ∧
        (fetchApply env.fetchNew { name := filename, project := commit.project }).getContent = none)) :
    diffFile env commit filename status =
      (.resolved ((fetchApply env.fetchOld { name := filename, project := commit.project }).setAdditions
          (-((fetchApply env.fetchOld { name := filename, project := commit.project }).getLines env.atob : Int))),
       [.metaFetch commit.id, .contentFetch commit.id filename, .contentFetch pid filename])
    ∧ ((fetchApply env.fetchOld { name := filename, project := commit.project }).setAdditions
          (-((fetchApply env.fetchOld { name := filename, project := commit.project }).getLines env.atob : Int))).additions ≤ 0 := by
  have hsetN := fetchFileContent_settles env.fetchNew commit
      { name := filename, project := commit.project } hNewS
  have hsetO := fetchFileContent_settles env.fetchOld
      { id := pid, project := commit.project }
      { name := filename, project := commit.project } hOldS
  constructor
  · unfold diffFile
    rcases hBr with hBr | ⟨hne, habs⟩
    · subst hBr
      simp [File.getName, Commit.getID, Commit.getProject, hIgn, hSk, hMeta, hPar, hM,
        hsetN, hsetO]
    · simp [File.getName, Commit.getID, Commit.getProject, hIgn, hSk, hMeta, hPar, hM,
        hsetN, hsetO, hne, habs]
  · simp [File.setAdditions]

/-- Witness for the amended C3: a status-`removal` call in the
baseline environment, parent content of 2 lines, delta −2 ≤ 0. -/
theorem diffFile_removal_or_absent_current_witness :
    envW.isIgnored "x.js" = false
    ∧ (envW.getSkill "x.js").isNone = false
    ∧ envW.meta = .ok (some cdW)
    ∧ cdW.parent_ids = ["par"]
    ∧ envW.now.getMonth = cdW.created_at.getMonth
    ∧ envW.fetchNew ≠ .err none
    ∧ envW.fetchOld ≠ .err none
    ∧ ("removal" = "removal" ∨ (("removal" : String) ≠ "addition" ∧
        (fetchApply envW.fetchNew { name := "x.js", project := commW.project }).getContent = none))
    ∧ ((diffFile envW commW "x.js" "removal" =
      (.resolved ((fetchApply envW.fetchOld { name := "x.js", project := commW.project }).setAdditions
          (-((fetchApply envW.fetchOld { name := "x.js", project := commW.project }).getLines envW.atob : Int))),
       [.metaFetch commW.id, .contentFetch commW.id "x.js", .contentFetch "par" "x.js"]))
    ∧ ((fetchApply envW.fetchOld { name := "x.js", project := commW.project }).setAdditions
          (-((fetchApply envW.fetchOld { name := "x.js", project := commW.project }).getLines envW.atob : Int))).additions ≤ 0) :=
  ⟨rfl, rfl, rfl, rfl, rfl, by decide, by decide, Or.inl rfl,
   diffFile_removal_or_absent_current envW commW "x.js" "removal" cdW "par" rfl rfl rfl rfl rfl
     (by decide) (by decide) (Or.inl rfl)⟩

/-- C4: for an eligible single-parent commit with status
`modification` and fetched current content, if the parent-revision
content is Absent the change is treated as an addition: `diffFile`
resolves with the current file carrying a delta equal to the current
content's total line count, and the trace shows no diff computation. -/
theorem diffFile_absent_parent_addition (env : Env) (commit : Commit) (filename : String)
    (cd : CommitData) (pid cNew : String)
    (hIgn : env.isIgnored filename = false)
    (hSk : (env.getSkill filename).isNone = false)
    (hMeta : env.meta = .ok (some cd))
    (hPar : cd.parent_ids = [pid])
    (hM : env.now.getMonth = cd.created_at.getMonth)
    (hNew : env.fetchNew = .ok (some cNew))
    (hOldS : env.fetchOld ≠ .err none)
    (hOldAbs : (fetchApply env.fetchOld { name := filename, project := commit.project }).getContent = none) :
    diffFile env commit filename "modification" =
      (.resolved { name := filename, project := commit.project, content := some cNew,
                   additions := (countLines (env.atob cNew) : Int) },
       [.metaFetch commit.id, .contentFetch commit.id filename, .contentFetch pid filename]) := by
  have hsetO := fetchFileContent_settles env.fetchOld
      { id := pid, project := commit.project }
      { name := filename, project := commit.project } hOldS
  have hsetN : fetchFileContent env.fetchNew commit
      { name := filename, project := commit.project } =
      .resolved (File.setContent { name := filename, project := commit.project } cNew) := by
    rw [hNew]; rfl
  have hOldAbs2 : (fetchApply env.fetchOld
      { name := filename, project := commit.project }).content = none := hOldAbs
  unfold diffFile
  simp [File.getName, Commit.getID, Commit.getProject, hIgn, hSk, hMeta, hPar, hM,
    hsetN, File.setContent, File.getContent, hsetO, hOldAbs2,
    File.setAdditions, File.getLines]

/-- Witness for C4: parent fetch fails with a JSON "not found" error,
so the parent content is Absent; the modification resolves as a full
addition of the 3-line current content. -/
theorem diffFile_absent_parent_addition_witness :
    envAbsOld.isIgnored "x.js" = false
    ∧ (envAbsOld.getSkill "x.js").isNone = false
    ∧ envAbsOld.meta = .ok (some cdW)
    ∧ cdW.parent_ids = ["par"]
    ∧ envAbsOld.now.getMonth = cdW.created_at.getMonth
    ∧ envAbsOld.fetchNew = .ok (some "a\nb\nc\n")
    ∧ envAbsOld.fetchOld ≠ .err none
    ∧ (fetchApply envAbsOld.fetchOld { name := "x.js", project := commW.project }).getContent = none
    ∧ diffFile envAbsOld commW "x.js" "modification" =
      (.resolved { name := "x.js", project := commW.project, content := some "a\nb\nc\n",
                   additions := (countLines (envAbsOld.atob "a\nb\nc\n") : Int) },
       [.metaFetch commW.id, .contentFetch commW.id "x.js", .contentFetch "par" "x.js"]) :=
  ⟨rfl, rfl, rfl, rfl, rfl, rfl, by decide, rfl,
   diffFile_absent_parent_addition envAbsOld commW "x.js" cdW "par" "a\nb\nc\n"
     rfl rfl rfl rfl rfl rfl (by decide) rfl⟩

/-- C5: a commit whose metadata carries more than one parent revision
identifier is rejected with reason "commit was a merge", for every
status argument and every content-fetch response, with only the
metadata query in the trace (no content fetch). -/
theorem diffFile_merge_rejects (env : Env) (commit : Commit) (filename status : String)
    (cd : CommitData)
    (hIgn : env.isIgnored filename = false)
    (hSk : (env.getSkill filename).isNone = false)
    (hMeta : env.meta = .ok (some cd))
    (hPar : 1 < cd.parent_ids.length) :
    diffFile env commit filename status =
      (.rejected (filename ++ " @ #" ++ commit.id ++ ": commit was a merge"),
       [.metaFetch commit.id]) := by
  unfold diffFile
  simp [File.getName, Commit.getID, hIgn, hSk, hMeta, hPar]

/-- Witness for C5: a two-parent commit is rejected as a merge. -/
theorem diffFile_merge_rejects_witness :
    envMerge.isIgnored "x.js" = false
    ∧ (envMerge.getSkill "x.js").isNone = false
    ∧ envMerge.meta = .ok (some cdMerge)
    ∧ 1 < cdMerge.parent_ids.length
    ∧ diffFile envMerge commW "x.js" "modification" =
      (.rejected ("x.js" ++ " @ #" ++ commW.id ++ ": commit was a merge"),
       [.metaFetch commW.id]) :=
  ⟨rfl, rfl, rfl, by decide,
   diffFile_merge_rejects envMerge commW "x.js" "modification" cdMerge rfl rfl rfl (by decide)⟩

/-- Counterexample to C6 as stated: the code compares only
`getMonth()` (the 0–11 month-of-year), so a commit created in the same
month of a DIFFERENT year (September 2024 vs evaluation at September
2025) is not rejected at all — `diffFile` proceeds to the content
fetch and resolves — although the claim demands an out-of-window
rejection before any content fetch. -/
theorem diffFile_same_month_different_year_cex :
    envYear.now.year = 2025 ∧ cdYear.created_at.year = 2024
    ∧ envYear.now.getMonth = cdYear.created_at.getMonth
    ∧ envYear.meta = .ok (some cdYear)
    ∧ diffFile envYear commW "x.js" "addition" =
        (.resolved { name := "x.js", project := projW, content := some "a\nb\nc\n", additions := 3 },
         [.metaFetch "abc", .contentFetch "abc" "x.js"]) := by decide

/-- C6 (amended): for a commit that passes the earlier checks (path
processable, metadata loaded, at most one parent) whose creation
date's month-of-year differs from the evaluation time's month-of-year,
`diffFile` rejects with reason "commit was not made this month", with
only the metadata query in the trace — before any content fetch. -/
theorem diffFile_month_window_rejects (env : Env) (commit : Commit) (filename status : String)
    (cd : CommitData)
    (hIgn : env.isIgnored filename = false)
    (hSk : (env.getSkill filename).isNone = false)
    (hMeta : env.meta = .ok (some cd))
    (hLe : cd.parent_ids.length ≤ 1)
    (hM : env.now.getMonth ≠ cd.created_at.getMonth) :
    diffFile env commit filename status =
      (.rejected (filename ++ " @ #" ++ commit.id ++ ": commit was not made this month"),
       [.metaFetch commit.id]) := by
  have hnl : ¬ (1 < cd.parent_ids.length) := by omega
  unfold diffFile
  simp [File.getName, Commit.getID, hIgn, hSk, hMeta, hnl, hM]

/-- Witness for the amended C6: commit created in August, evaluation
in September of the same year. -/
theorem diffFile_month_window_rejects_witness :
    envMonth.isIgnored "x.js" = false
    ∧ (envMonth.getSkill "x.js").isNone = false
    ∧ envMonth.meta = .ok (some cdMonth)
    ∧ cdMonth.parent_ids.length ≤ 1
    ∧ envMonth.now.getMonth ≠ cdMonth.created_at.getMonth
    ∧ diffFile envMonth commW "x.js" "modification" =
      (.rejected ("x.js" ++ " @ #" ++ commW.id ++ ": commit was not made this month"),
       [.metaFetch commW.id]) :=
  ⟨rfl, rfl, rfl, by decide, by decide,
   diffFile_month_window_rejects envMonth commW "x.js" "modification" cdMonth rfl rfl rfl
     (by decide) (by decide)⟩

/-- Counterexample to C7 as stated: when the files query fails with an
error body that is not valid JSON, the `JSON.parse` call inside the
failure handler throws, and the `fetchFileContent` promise never
settles — it does not resolve with the Absent-content file the claim
demands (it still never rejects). -/
theorem fetchFileContent_unparseable_error_cex :
    fetchFileContent (.err none) commW fileW = .pending
    ∧ fetchFileContent (.err none) commW fileW ≠ .resolved fileW := by decide

/-- C7 (amended): `fetchFileContent` never rejects; on a successful
fetch with a truthy body it resolves with the fetched payload attached
to the file, on a falsy body it resolves with the file unchanged, and
on a query failure whose error body parses as JSON it resolves with
the file's content unchanged (Absent for the fresh files `diffFile`
passes); on a failure whose error body is not valid JSON the promise
never settles. -/
theorem fetchFileContent_never_rejects (resp : FilesResp) (commit : Commit) (f : File) :
    (∀ r, fetchFileContent resp commit f ≠ .rejected r)
    ∧ (∀ c, resp = .ok (some c) → fetchFileContent resp commit f = .resolved (f.setContent c))
    ∧ (resp = .ok none → fetchFileContent resp commit f = .resolved f)
    ∧ (∀ m, resp = .err (some m) → fetchFileContent resp commit f = .resolved f)
    ∧ (resp = .err none → fetchFileContent resp commit f = .pending) := by
  refine ⟨?_, ?_, ?_, ?_, ?_⟩
  · intro r hr
    cases resp with
    | ok o => cases o <;> simp [fetchFileContent] at hr
    | err m => cases m <;> simp [fetchFileContent] at hr
  · intro c hc; subst hc; rfl
  · intro hc; subst hc; rfl
  · intro m hc; subst hc; rfl
  · intro hc; subst hc; rfl

/-- Witness for the amended C7: a JSON "not found" failure does not
reject and resolves with the file's content still Absent. -/
theorem fetchFileContent_never_rejects_witness :
    fetchFileContent (.err (some "404 File Not Found")) commW fileW ≠ .rejected "boom"
    ∧ fetchFileContent (.err (some "404 File Not Found")) commW fileW = .resolved fileW :=
  ⟨(fetchFileContent_never_rejects (.err (some "404 File Not Found")) commW fileW).1 "boom",
   (fetchFileContent_never_rejects (.err (some "404 File Not Found")) commW fileW).2.2.2.1
     "404 File Not Found" rfl⟩

/-- C8: a path that is on the ignore list or maps to no recognized
skill is rejected with the "ignored or unskilled file" reason and an
empty query trace: no metadata fetch and no content fetch. -/
theorem diffFile_prefilter_rejects (env : Env) (commit : Commit) (filename status : String)
    (h : env.isIgnored filename = true ∨ env.getSkill filename = none) :
    diffFile env commit filename status =
      (.rejected (filename ++ " @ #" ++ commit.id ++ ": ignored or unskilled file"), []) := by
  unfold diffFile
  rcases h with h | h <;>
    simp [File.getName, Commit.getID, h]

/-- Witness for C8: an ignored path is rejected with no queries. -/
theorem diffFile_prefilter_rejects_witness :
    (envIgn.isIgnored "x.js" = true ∨ envIgn.getSkill "x.js" = none)
    ∧ diffFile envIgn commW "x.js" "modification" =
      (.rejected ("x.js" ++ " @ #" ++ commW.id ++ ": ignored or unskilled file"), []) :=
  ⟨Or.inl rfl,
   diffFile_prefilter_rejects envIgn commW "x.js" "modification" (Or.inl rfl)⟩

/-- C9: `diffFile` is deterministic in its inputs and environment: two
calls with the same commit, path and status, the same remote
responses, the same wall-clock date, and the same collaborator
functions produce identical outcomes and traces.  The embedding is a
pure function of exactly these data, mirroring the source, which
creates fresh `File`/`Commit` values per call and reads no mutable
state shared between calls. -/
theorem diffFile_deterministic (env₁ env₂ : Env) (c₁ c₂ : Commit) (fn₁ fn₂ st₁ st₂ : String)
    (hEnv : env₁ = env₂) (hC : c₁ = c₂) (hFn : fn₁ = fn₂) (hSt : st₁ = st₂) :
    diffFile env₁ c₁ fn₁ st₁ = diffFile env₂ c₂ fn₂ st₂ := by
  subst hEnv; subst hC; subst hFn; subst hSt; rfl

/-- Witness for C9 at the baseline inputs. -/
theorem diffFile_deterministic_witness :
    envW = envW ∧ commW = commW
    ∧ ("x.js" : String) = "x.js" ∧ ("modification" : String) = "modification"
    ∧ diffFile envW commW "x.js" "modification" = diffFile envW commW "x.js" "modification" :=
  ⟨rfl, rfl, rfl, rfl,
   diffFile_deterministic envW envW commW commW "x.js" "x.js" "modification" "modification"
     rfl rfl rfl rfl⟩

/-- C10: whenever `fetchFileContent` resolves, the resolved file is
the argument file with at most its content changed: its name, project
and accumulated delta are those of the argument, in the success and
the failure branch alike. -/
theorem fetchFileContent_frame (resp : FilesResp) (commit : Commit) (f g : File)
    (h : fetchFileContent resp commit f = .resolved g) :
    g.name = f.name ∧ g.project = f.project ∧ g.additions = f.additions := by
  cases resp with
  | ok o =>
    cases o <;> simp [fetchFileContent, File.setContent] at h <;> subst h <;> simp
  | err m =>
    cases m <;> simp [fetchFileContent] at h
    subst h; simp

/-- Witness for C10: a successful fetch attaches content and leaves
name, project and delta unchanged. -/
theorem fetchFileContent_frame_witness :
    fetchFileContent (.ok (some "Zm9v")) commW fileW = .resolved (fileW.setContent "Zm9v")
    ∧ ((fileW.setContent "Zm9v").name = fileW.name
       ∧ (fileW.setContent "Zm9v").project = fileW.project
       ∧ (fileW.setContent "Zm9v").additions = fileW.additions) :=
  ⟨rfl, fetchFileContent_frame (.ok (some "Zm9v")) commW fileW (fileW.setContent "Zm9v") rfl⟩

end DevRPG
